import Mathlib

/-!
# Magic Set Editor: package cache, generated images, card list actions

A shallow embedding of

* `src/util/io/package_manager.hpp` (`PackageManager::open`),
* `src/gfx/generated_image.hpp` (`GeneratedImage` and its eight variants),
* `src/data/action/set.cpp` (`AddCardAction`, `RemoveCardAction`, `ReorderCardsAction`),

followed by theorems about them.
-/

namespace MSE

/-! ## util/io/package_manager.hpp -/

/-- The name of a package class: the `T` of `open<T>` and the dynamic type of a loaded object. -/
abbrev ClassId := Nat

/-- An object created by `new_shared<T>()`: its identity and its dynamic type. -/
structure Packaged where
  id : Nat
  dynType : ClassId
  deriving DecidableEq

/-- The pointer type `PackagedP` (`shared_ptr<Packaged>`); `none` is the null pointer. -/
abbrev PackagedP := Option Packaged

/-- What `PackageManager::open` uses from outside the header:
`normalize` is `wxFileName::Normalize` followed by `GetFullPath`,
`derived d b` says that class `d` is derived from class `b`,
`load obj filename` is the call `typedP->open(filename)`: `none` when it returns,
`some e` when it throws `e`. -/
structure Env where
  normalize : String → String
  derived : ClassId → ClassId → Bool
  load : Packaged → String → Option String

/-- The contents of `map<String, PackagedP>`, as key/value pairs with distinct keys. -/
abbrev PackageMap := List (String × PackagedP)

/-- The value stored under `k`, if the key is present. -/
def PackageMap.find : PackageMap → String → Option PackagedP
  | [], _ => none
  | (k', v) :: rest, k => if k' = k then some v else PackageMap.find rest k

/-- Assignment through the reference returned by `operator[]`: the value under `k` becomes `v`. -/
def PackageMap.assign : PackageMap → String → PackagedP → PackageMap
  | [], k, v => [(k, v)]
  | (k', v') :: rest, k, v =>
    if k' = k then (k', v) :: rest else (k', v') :: PackageMap.assign rest k v

/-- The call `loadedPackages[k]` of `std::map`: a key that is absent is inserted with a
default constructed (null) pointer; the result is the map and the value now under `k`. -/
def PackageMap.subscript (m : PackageMap) (k : String) : PackageMap × PackagedP :=
  match m.find k with
  | some v => (m, v)
  | none => (m.assign k none, none)

/-- The class `PackageManager`, with the two things its `open` acts on besides its own
members: the allocator (`nextObject`, the identity the next `new_shared` gives) and the
record of the calls `typedP->open(filename)` made so far (`loads`, oldest first). -/
structure PackageManager where
  loadedPackages : PackageMap
  dataDirectory : String
  nextObject : Nat
  loads : List (Packaged × String)
  deriving DecidableEq

/-- The cast `dynamic_pointer_cast<T>(p)`: null for a null pointer, and for an object whose
dynamic type is neither `T` nor derived from `T`. -/
def dynamic_pointer_cast (env : Env) (T : ClassId) (p : PackagedP) : PackagedP :=
  match p with
  | none => none
  | some obj => if obj.dynType = T ∨ env.derived obj.dynType T = true then some obj else none

/-- Lines 31 to 33 of `open`: the normalized full path of `name` under the data directory. -/
def fullPath (env : Env) (dataDirectory name : String) : String :=
  env.normalize (dataDirectory ++ "/" ++ name)

/-- The template `PackageManager::open<T>(name)`: the manager afterwards, and either the
pointer returned or the exception thrown by the package's own `open`. -/
def PackageManager.open (env : Env) (pm : PackageManager) (T : ClassId) (name : String) :
    PackageManager × Except String Packaged :=
  let filename := fullPath env pm.dataDirectory name
  -- Is this package already loaded?
  let (m, p) := pm.loadedPackages.subscript filename
  match dynamic_pointer_cast env T p with
  | some typedP => ({ pm with loadedPackages := m }, Except.ok typedP)
  | none =>
    -- not loaded, or loaded with wrong type
    let typedP : Packaged := { id := pm.nextObject, dynType := T }
    let pm1 : PackageManager :=
      { pm with
        loadedPackages := m.assign filename (some typedP),
        nextObject := pm.nextObject + 1,
        loads := pm.loads ++ [(typedP, filename)] }
    match env.load typedP filename with
    | none => (pm1, Except.ok typedP)
    | some e => (pm1, Except.error e)

/-- A sequence of calls `open<T>(name)` on one manager, exceptions caught by the caller. -/
def PackageManager.openAll (env : Env) (pm : PackageManager) :
    List (ClassId × String) → PackageManager
  | [] => pm
  | (T, name) :: rest => PackageManager.openAll env (pm.open env T name).1 rest

/-- The number of calls `typedP->open(path)` recorded for `path`. -/
def PackageManager.loadCount (pm : PackageManager) (path : String) : Nat :=
  (pm.loads.filter (fun l => l.2 = path)).length

/-- The object currently cached under `path` (null when the key is absent). -/
def PackageManager.cached (pm : PackageManager) (path : String) : PackagedP :=
  (pm.loadedPackages.find path).getD none

/-- The manager after a call of `open` that finds a castable instance. -/
def PackageManager.afterHit (pm : PackageManager) (path : String) : PackageManager :=
  { pm with loadedPackages := (pm.loadedPackages.subscript path).1 }

/-- The manager after a call of `open<T>` that creates a new instance. -/
def PackageManager.afterMiss (pm : PackageManager) (T : ClassId) (path : String) :
    PackageManager :=
  { pm with
    loadedPackages :=
      (pm.loadedPackages.subscript path).1.assign path (some ⟨pm.nextObject, T⟩),
    nextObject := pm.nextObject + 1,
    loads := pm.loads ++ [(⟨pm.nextObject, T⟩, path)] }

/-- An environment for examples: `data/./a` normalizes to `data/a`, no class is derived
from another, every load returns. -/
def exampleEnv : Env :=
  { normalize := fun s => if s = "data/./a" then "data/a" else s,
    derived := fun _ _ => false,
    load := fun _ _ => none }

/-- The environment `exampleEnv` with a load that always throws. -/
def failingEnv : Env :=
  { exampleEnv with load := fun _ _ => some "file not found" }

/-- A manager that has loaded nothing yet. -/
def emptyManager : PackageManager :=
  { loadedPackages := [], dataDirectory := "data", nextObject := 0, loads := [] }

/-- A manager that holds object 0, of class 1, under `data/a`. -/
def loadedManager : PackageManager :=
  { loadedPackages := [("data/a", some ⟨0, 1⟩)], dataDirectory := "data", nextObject := 1,
    loads := [(⟨0, 1⟩, "data/a")] }

/-! ## gfx/generated_image.hpp -/

/-- Modelled from the spec: the enumeration `PreserveAspect` is declared in `gfx/gfx.hpp`;
the spec lists stretch, fit with letterbox and fit with crop. -/
inductive PreserveAspect where
  | ASPECT_STRETCH
  | ASPECT_FIT_LETTERBOX
  | ASPECT_FIT_CROP
  deriving DecidableEq

/-- Modelled from the spec: the enumeration `ImageCombine` is declared in `gfx/gfx.hpp`;
a closed enumeration with the normal operator and further operators, told apart by number. -/
inductive ImageCombine where
  | COMBINE_NORMAL
  | COMBINE_OTHER (code : Nat)
  deriving DecidableEq

/-- A `Package*`: `none` is `nullptr`, `some n` points to package number `n`. -/
abbrev PackagePtr := Option Nat

/-- The struct `GeneratedImage::Options`, members in declaration order. -/
structure Options where
  width : Int
  height : Int
  preserve_aspect : PreserveAspect
  saturate : Bool
  package : PackagePtr
  symbol_package : PackagePtr
  deriving DecidableEq

/-- The constructor of `Options`, parameters in the order of its parameter list and each
member initialised from the parameter of its name. -/
def Options.ctor (width height : Int) (package symbol_package : PackagePtr)
    (preserve_aspect : PreserveAspect) (saturate : Bool) : Options :=
  { width := width, height := height, preserve_aspect := preserve_aspect,
    saturate := saturate, package := package, symbol_package := symbol_package }

/-- The call `Options()`: every parameter takes its default argument. -/
def Options.default : Options :=
  Options.ctor 0 0 none none PreserveAspect.ASPECT_STRETCH false

/-- A `double` member, given by the 64 bits of the value stored in it. -/
structure Double where
  bits : Nat
  deriving DecidableEq

/-- Modelled from the spec: the comparison of two coordinates inside `operator ==`, whose
body is in `gfx/generated_image.cpp`: an exact match, without epsilon, so two coordinates
compare equal when they hold the same value. -/
def Double.eq (a b : Double) : Bool :=
  decide (a = b)

/-- Modelled from the spec: the class `Age` is declared in `util/age.hpp`; a monotonically
increasing counter. -/
abbrev Age := Nat

/-- Modelled from the spec: `SymbolVariation` is declared outside this header; a variation
is given by a number, equal variations by the same number. -/
abbrev SymbolVariationP := Nat

/-- The eight classes derived from `GeneratedImage`, each with its private members in
declaration order; a `GeneratedImageP` member is the node it points to. -/
inductive GeneratedImage where
  | LinearBlendImage (image1 image2 : GeneratedImage) (x1 y1 x2 y2 : Double)
  | MaskedBlendImage (light dark mask : GeneratedImage)
  | CombineBlendImage (image1 image2 : GeneratedImage) (image_combine : ImageCombine)
  | SetMaskImage (image mask : GeneratedImage)
  | SetCombineImage (image : GeneratedImage) (image_combine : ImageCombine)
  | PackagedImage (filename : String)
  | BuiltInImage (name : String)
  | SymbolToImage (filename : String) (age : Age) (variation : SymbolVariationP)
  deriving DecidableEq

/-- Modelled from the spec: the bodies of `operator ==` are in `gfx/generated_image.cpp`,
which is not among the sources. Structural equality: same concrete variant, equal children
(recursively, in order), same scalar parameters; the four coordinates of a
`LinearBlendImage` match exactly, without epsilon. -/
def GeneratedImage.eq : GeneratedImage → GeneratedImage → Bool
  | .LinearBlendImage a1 a2 x1 y1 x2 y2, .LinearBlendImage b1 b2 u1 v1 u2 v2 =>
    GeneratedImage.eq a1 b1 && GeneratedImage.eq a2 b2
      && x1.eq u1 && y1.eq v1 && x2.eq u2 && y2.eq v2
  | .MaskedBlendImage l1 d1 m1, .MaskedBlendImage l2 d2 m2 =>
    GeneratedImage.eq l1 l2 && GeneratedImage.eq d1 d2 && GeneratedImage.eq m1 m2
  | .CombineBlendImage a1 a2 c1, .CombineBlendImage b1 b2 c2 =>
    GeneratedImage.eq a1 b1 && GeneratedImage.eq a2 b2 && decide (c1 = c2)
  | .SetMaskImage i1 m1, .SetMaskImage i2 m2 =>
    GeneratedImage.eq i1 i2 && GeneratedImage.eq m1 m2
  | .SetCombineImage i1 c1, .SetCombineImage i2 c2 =>
    GeneratedImage.eq i1 i2 && decide (c1 = c2)
  | .PackagedImage f1, .PackagedImage f2 => decide (f1 = f2)
  | .BuiltInImage n1, .BuiltInImage n2 => decide (n1 = n2)
  | .SymbolToImage f1 a1 v1, .SymbolToImage f2 a2 v2 =>
    decide (f1 = f2) && decide (a1 = a2) && decide (v1 = v2)
  | _, _ => false

/-- The default `GeneratedImage::combine` of the base class. -/
def GeneratedImage.combineDefault : ImageCombine := ImageCombine.COMBINE_NORMAL

/-- The virtual function `combine`. The three leaf classes declare no override and inherit
the default of the base class. Modelled from the spec: the bodies of the five overrides are
in `gfx/generated_image.cpp`; a linear blend returns its first operand's mode, a masked
blend defers to `light`, a combine blend and a set-combine return their stored mode. The
spec gives no mode for `SetMaskImage`, so it is the parameter `setMask`, applied to the
modes of `image` and `mask`. -/
def GeneratedImage.combine (setMask : ImageCombine → ImageCombine → ImageCombine) :
    GeneratedImage → ImageCombine
  | .LinearBlendImage image1 _ _ _ _ _ => GeneratedImage.combine setMask image1
  | .MaskedBlendImage light _ _ => GeneratedImage.combine setMask light
  | .CombineBlendImage _ _ image_combine => image_combine
  | .SetMaskImage image mask =>
    setMask (GeneratedImage.combine setMask image) (GeneratedImage.combine setMask mask)
  | .SetCombineImage _ image_combine => image_combine
  | .PackagedImage _ => GeneratedImage.combineDefault
  | .BuiltInImage _ => GeneratedImage.combineDefault
  | .SymbolToImage _ _ _ => GeneratedImage.combineDefault

/-- The double `0.0`. -/
def Double.zero : Double := ⟨0⟩

/-- A `CardP` (`shared_ptr<Card>`), compared by the identity of the card it points to. -/
abbrev CardP := Nat

/-- The part of the class `Set` the card list actions act on: the vector `cards`
(`CardSet` here, the name `Set` being the one of mathematical sets). -/
structure CardSet where
  cards : List CardP
  deriving DecidableEq

/-- What a card list action can raise: the `InternalError` thrown by a constructor, or an
`assert` that fails. -/
inductive ActionError where
  | InternalError (message : String)
  | AssertionFailed (expression : String)
  deriving DecidableEq

/-- The algorithm `find(begin, end, card)`, as the distance of its result from `begin`:
the position of the first element equal to `card`, or the size when there is none. -/
def find : List CardP → CardP → Nat
  | [], _ => 0
  | c :: rest, card => if c = card then 0 else find rest card + 1

/-- The call `cards.erase(cards.begin() + pos)` for `pos < size`. -/
def erase : List CardP → Nat → List CardP
  | [], _ => []
  | _ :: rest, 0 => rest
  | c :: rest, pos + 1 => c :: erase rest pos

/-- The call `cards.insert(cards.begin() + pos, card)` for `pos <= size`. -/
def insert : List CardP → Nat → CardP → List CardP
  | cards, 0, card => card :: cards
  | [], _ + 1, card => [card]
  | c :: rest, pos + 1, card => c :: insert rest pos card

/-- The members of `AddCardAction`. -/
structure AddCardAction where
  card : CardP
  deriving DecidableEq

/-- The function `AddCardAction::perform`. -/
def AddCardAction.perform (self : AddCardAction) (set : CardSet) (to_undo : Bool) :
    Except ActionError CardSet :=
  if !to_undo then
    .ok { cards := set.cards ++ [self.card] }
  else if set.cards.isEmpty then
    .error (.AssertionFailed "!set.cards.empty()")
  else
    .ok { cards := set.cards.dropLast }

/-- The members of `RemoveCardAction`. -/
structure RemoveCardAction where
  card : CardP
  card_id : Nat
  deriving DecidableEq

/-- The constructor `RemoveCardAction::RemoveCardAction(set, card)`. -/
def RemoveCardAction.ctor (set : CardSet) (card : CardP) :
    Except ActionError RemoveCardAction :=
  -- find the card_id of the card we want to remove
  let it := find set.cards card
  if it ≠ set.cards.length then
    .ok { card := card, card_id := it }
  else
    .error (.InternalError "Card to remove not found in set")

/-- The constructor `RemoveCardAction::RemoveCardAction(set, card)` as a step on the set it
is given by reference: the set afterwards and the outcome. The constructor reads
`set.cards` through `find` and writes nothing to it. -/
def RemoveCardAction.construct (set : CardSet) (card : CardP) :
    CardSet × Except ActionError RemoveCardAction :=
  (set, RemoveCardAction.ctor set card)

/-- The function `RemoveCardAction::perform`. -/
def RemoveCardAction.perform (self : RemoveCardAction) (set : CardSet) (to_undo : Bool) :
    Except ActionError CardSet :=
  if !to_undo then
    if self.card_id < set.cards.length then
      .ok { cards := erase set.cards self.card_id }
    else
      .error (.AssertionFailed "card_id < set.cards.size()")
  else
    if self.card_id ≤ set.cards.length then
      .ok { cards := insert set.cards self.card_id self.card }
    else
      .error (.AssertionFailed "card_id <= set.cards.size()")

/-- The members of `ReorderCardsAction`. -/
structure ReorderCardsAction where
  card_id1 : Nat
  card_id2 : Nat
  deriving DecidableEq

/-- The function `ReorderCardsAction::perform`. -/
def ReorderCardsAction.perform (self : ReorderCardsAction) (set : CardSet) (_to_undo : Bool) :
    Except ActionError CardSet :=
  if self.card_id1 < set.cards.length then
    if self.card_id2 < set.cards.length then
      let c1 := set.cards.getD self.card_id1 0
      let c2 := set.cards.getD self.card_id2 0
      .ok { cards := (set.cards.set self.card_id1 c2).set self.card_id2 c1 }
    else
      .error (.AssertionFailed "card_id2 < set.cards.size()")
  else
    .error (.AssertionFailed "card_id1 < set.cards.size()")

/-! ## Theorems: the package map -/

theorem PackageMap.find_assign_same (m : PackageMap) (k : String) (v : PackagedP) :
    (m.assign k v).find k = some v := by
  induction m with
  | nil => simp [PackageMap.assign, PackageMap.find]
  | cons kv rest ih =>
    obtain ⟨k', v'⟩ := kv
    by_cases h : k' = k
    · simp [PackageMap.assign, PackageMap.find, h]
    · simp [PackageMap.assign, PackageMap.find, h, ih]

theorem PackageMap.find_assign_other (m : PackageMap) (k k' : String) (v : PackagedP)
    (h : k' ≠ k) : (m.assign k v).find k' = m.find k' := by
  induction m with
  | nil => simp [PackageMap.assign, PackageMap.find, Ne.symm h]
  | cons kv rest ih =>
    obtain ⟨k0, v0⟩ := kv
    by_cases h0 : k0 = k
    · subst h0
      simp [PackageMap.assign, PackageMap.find, Ne.symm h]
    · by_cases h1 : k0 = k'
      · subst h1
        simp [PackageMap.assign, PackageMap.find, h0]
      · simp [PackageMap.assign, PackageMap.find, h0, h1, ih]

theorem PackageMap.subscript_snd (m : PackageMap) (k : String) :
    (m.subscript k).2 = (m.find k).getD none := by
  unfold PackageMap.subscript
  cases h : m.find k <;> simp

theorem PackageMap.find_subscript_same (m : PackageMap) (k : String) :
    (m.subscript k).1.find k = some ((m.find k).getD none) := by
  unfold PackageMap.subscript
  cases h : m.find k with
  | none => simp [PackageMap.find_assign_same]
  | some v => simp [h]

theorem PackageMap.find_subscript_other (m : PackageMap) (k k' : String) (h : k' ≠ k) :
    (m.subscript k).1.find k' = m.find k' := by
  unfold PackageMap.subscript
  cases h0 : m.find k with
  | none => simp [PackageMap.find_assign_other _ _ _ _ h]
  | some v => simp

/-! ## Theorems: `PackageManager::open` -/

theorem PackageManager.open_hit (env : Env) (pm : PackageManager) (T : ClassId)
    (name : String) (obj : Packaged)
    (h : dynamic_pointer_cast env T (pm.cached (fullPath env pm.dataDirectory name))
      = some obj) :
    pm.open env T name
      = (pm.afterHit (fullPath env pm.dataDirectory name), Except.ok obj) := by
  unfold PackageManager.cached at h
  rw [← PackageMap.subscript_snd] at h
  simp only [PackageManager.open, PackageManager.afterHit, h]

theorem PackageManager.open_miss (env : Env) (pm : PackageManager) (T : ClassId)
    (name : String)
    (h : dynamic_pointer_cast env T (pm.cached (fullPath env pm.dataDirectory name))
      = none) :
    pm.open env T name
      = (pm.afterMiss T (fullPath env pm.dataDirectory name),
          match env.load ⟨pm.nextObject, T⟩ (fullPath env pm.dataDirectory name) with
          | none => Except.ok ⟨pm.nextObject, T⟩
          | some e => Except.error e) := by
  unfold PackageManager.cached at h
  rw [← PackageMap.subscript_snd] at h
  simp only [PackageManager.open, PackageManager.afterMiss, h]
  cases env.load ⟨pm.nextObject, T⟩ (fullPath env pm.dataDirectory name) <;> rfl

theorem dynamic_pointer_cast_eq_some (env : Env) (T : ClassId) (p : PackagedP)
    (obj : Packaged) (h : dynamic_pointer_cast env T p = some obj) :
    p = some obj ∧ dynamic_pointer_cast env T (some obj) = some obj := by
  cases p with
  | none => simp [dynamic_pointer_cast] at h
  | some q =>
    simp only [dynamic_pointer_cast] at h ⊢
    split at h
    · rename_i hq
      cases h
      simp [hq]
    · cases h

theorem dynamic_pointer_cast_new (env : Env) (T : ClassId) (n : Nat) :
    dynamic_pointer_cast env T (some ⟨n, T⟩) = some ⟨n, T⟩ := by
  simp [dynamic_pointer_cast]

theorem PackageManager.cached_afterHit (pm : PackageManager) (path k : String) :
    (pm.afterHit path).cached k = pm.cached k := by
  unfold PackageManager.cached PackageManager.afterHit
  by_cases h : k = path
  · subst h
    simp [PackageMap.find_subscript_same]
  · simp [PackageMap.find_subscript_other _ _ _ h]

theorem PackageManager.cached_afterMiss_same (pm : PackageManager) (T : ClassId)
    (path : String) : (pm.afterMiss T path).cached path = some ⟨pm.nextObject, T⟩ := by
  simp [PackageManager.cached, PackageManager.afterMiss, PackageMap.find_assign_same]

theorem PackageManager.cached_afterMiss_other (pm : PackageManager) (T : ClassId)
    (path k : String) (h : k ≠ path) : (pm.afterMiss T path).cached k = pm.cached k := by
  simp [PackageManager.cached, PackageManager.afterMiss,
    PackageMap.find_assign_other _ _ _ _ h, PackageMap.find_subscript_other _ _ _ h]

theorem PackageManager.open_cases (env : Env) (pm : PackageManager) (T : ClassId)
    (name : String) :
    (∃ obj, dynamic_pointer_cast env T (pm.cached (fullPath env pm.dataDirectory name))
        = some obj ∧
      pm.open env T name
        = (pm.afterHit (fullPath env pm.dataDirectory name), Except.ok obj)) ∨
    (dynamic_pointer_cast env T (pm.cached (fullPath env pm.dataDirectory name)) = none ∧
      (pm.open env T name).1 = pm.afterMiss T (fullPath env pm.dataDirectory name)) := by
  cases h : dynamic_pointer_cast env T (pm.cached (fullPath env pm.dataDirectory name)) with
  | none => exact Or.inr ⟨rfl, by rw [PackageManager.open_miss env pm T name h]⟩
  | some obj => exact Or.inl ⟨obj, rfl, PackageManager.open_hit env pm T name obj h⟩

theorem PackageManager.open_dataDirectory (env : Env) (pm : PackageManager) (T : ClassId)
    (name : String) : (pm.open env T name).1.dataDirectory = pm.dataDirectory := by
  rcases PackageManager.open_cases env pm T name with ⟨obj, _, h⟩ | ⟨_, h⟩
  · rw [h]; rfl
  · rw [h]; rfl

theorem PackageManager.cached_open_other (env : Env) (pm : PackageManager) (T : ClassId)
    (name k : String) (h : k ≠ fullPath env pm.dataDirectory name) :
    (pm.open env T name).1.cached k = pm.cached k := by
  rcases PackageManager.open_cases env pm T name with ⟨obj, _, ho⟩ | ⟨_, ho⟩
  · rw [ho]; exact PackageManager.cached_afterHit pm _ k
  · rw [ho]; exact PackageManager.cached_afterMiss_other pm T _ k h

theorem PackageManager.loadCount_open_other (env : Env) (pm : PackageManager) (T : ClassId)
    (name k : String) (h : k ≠ fullPath env pm.dataDirectory name) :
    (pm.open env T name).1.loadCount k = pm.loadCount k := by
  rcases PackageManager.open_cases env pm T name with ⟨obj, _, ho⟩ | ⟨_, ho⟩
  · rw [ho]; rfl
  · rw [ho]
    simp [PackageManager.loadCount, PackageManager.afterMiss, List.filter_append, Ne.symm h]

theorem PackageManager.open_ok_cached (env : Env) (pm : PackageManager) (T : ClassId)
    (name : String) (p : Packaged) (h : (pm.open env T name).2 = Except.ok p) :
    (pm.open env T name).1.cached (fullPath env pm.dataDirectory name) = some p ∧
      dynamic_pointer_cast env T (some p) = some p := by
  cases hc : dynamic_pointer_cast env T (pm.cached (fullPath env pm.dataDirectory name)) with
  | some obj =>
    rw [PackageManager.open_hit env pm T name obj hc] at h ⊢
    have hp : obj = p := by simpa using h
    subst hp
    obtain ⟨h1, h2⟩ := dynamic_pointer_cast_eq_some env T _ obj hc
    exact ⟨by rw [PackageManager.cached_afterHit]; exact h1, h2⟩
  | none =>
    rw [PackageManager.open_miss env pm T name hc] at h ⊢
    cases hl : env.load ⟨pm.nextObject, T⟩ (fullPath env pm.dataDirectory name) with
    | some e => rw [hl] at h; simp at h
    | none =>
      rw [hl] at h
      have hp : (⟨pm.nextObject, T⟩ : Packaged) = p := by simpa using h
      subst hp
      exact ⟨PackageManager.cached_afterMiss_same pm T _, dynamic_pointer_cast_new env T _⟩

theorem PackageManager.openAll_stable (env : Env) (T : ClassId) (path : String)
    (p : Packaged) (hcast : dynamic_pointer_cast env T (some p) = some p) :
    ∀ (ops : List (ClassId × String)) (pm : PackageManager),
      pm.cached path = some p →
      (∀ op ∈ ops, fullPath env pm.dataDirectory op.2 = path → op.1 = T) →
      (PackageManager.openAll env pm ops).cached path = some p ∧
        (PackageManager.openAll env pm ops).loadCount path = pm.loadCount path ∧
        (PackageManager.openAll env pm ops).dataDirectory = pm.dataDirectory := by
  intro ops
  induction ops with
  | nil => intro pm hc _; exact ⟨hc, rfl, rfl⟩
  | cons op rest ih =>
    intro pm hc hops
    obtain ⟨U, n⟩ := op
    have hdir := PackageManager.open_dataDirectory env pm U n
    have hrest : ∀ op ∈ rest,
        fullPath env (pm.open env U n).1.dataDirectory op.2 = path → op.1 = T := by
      intro op hop
      rw [hdir]
      exact hops op (List.mem_cons_of_mem _ hop)
    simp only [PackageManager.openAll]
    by_cases hp : fullPath env pm.dataDirectory n = path
    · have hU : U = T := hops (U, n) (List.mem_cons_self _ _) hp
      subst hU
      have hhit : dynamic_pointer_cast env U (pm.cached (fullPath env pm.dataDirectory n))
          = some p := by rw [hp, hc]; exact hcast
      have ho := PackageManager.open_hit env pm U n p hhit
      have hc1 : (pm.open env U n).1.cached path = some p := by
        rw [ho]; simp only []; rw [PackageManager.cached_afterHit]; exact hc
      obtain ⟨h1, h2, h3⟩ := ih (pm.open env U n).1 hc1 hrest
      refine ⟨h1, ?_, h3.trans hdir⟩
      rw [h2, ho]; rfl
    · have hne : path ≠ fullPath env pm.dataDirectory n := fun h => hp h.symm
      have hc1 : (pm.open env U n).1.cached path = some p := by
        rw [PackageManager.cached_open_other env pm U n path hne]; exact hc
      obtain ⟨h1, h2, h3⟩ := ih (pm.open env U n).1 hc1 hrest
      exact ⟨h1, h2.trans (PackageManager.loadCount_open_other env pm U n path hne),
        h3.trans hdir⟩

/-- C1: a cache hit of `PackageManager::open`. When `open<T>(n1)` returns `p` and every
`open` between it and a later `open<T>(n2)` that reaches the same normalized path asks for
`T`, then `open<T>(n2)` returns the same instance `p` and records no further load. -/
theorem open_cache_hit (env : Env) (pm : PackageManager) (T : ClassId) (n1 n2 : String)
    (p : Packaged) (between : List (ClassId × String))
    (hpath : fullPath env pm.dataDirectory n1 = fullPath env pm.dataDirectory n2)
    (hfirst : (pm.open env T n1).2 = Except.ok p)
    (hbetween : ∀ op ∈ between,
      fullPath env pm.dataDirectory op.2 = fullPath env pm.dataDirectory n1 → op.1 = T) :
    ((PackageManager.openAll env (pm.open env T n1).1 between).open env T n2).2
        = Except.ok p ∧
      ((PackageManager.openAll env (pm.open env T n1).1 between).open env T n2).1.loads
        = (PackageManager.openAll env (pm.open env T n1).1 between).loads := by
  obtain ⟨hc, hcast⟩ := PackageManager.open_ok_cached env pm T n1 p hfirst
  have hdir := PackageManager.open_dataDirectory env pm T n1
  have hops : ∀ op ∈ between,
      fullPath env (pm.open env T n1).1.dataDirectory op.2
        = fullPath env pm.dataDirectory n1 → op.1 = T := by
    intro op hop; rw [hdir]; exact hbetween op hop
  obtain ⟨h1, _, h3⟩ := PackageManager.openAll_stable env T
    (fullPath env pm.dataDirectory n1) p hcast between (pm.open env T n1).1 hc hops
  have hhit : dynamic_pointer_cast env T
      ((PackageManager.openAll env (pm.open env T n1).1 between).cached
        (fullPath env (PackageManager.openAll env (pm.open env T n1).1 between).dataDirectory
          n2)) = some p := by
    rw [h3, hdir, ← hpath, h1]; exact hcast
  rw [PackageManager.open_hit env _ T n2 p hhit]
  exact ⟨rfl, rfl⟩

theorem open_cache_hit_witness :
    (emptyManager.open exampleEnv 1 "a").2 = Except.ok ⟨0, 1⟩ ∧
      ((PackageManager.openAll exampleEnv (emptyManager.open exampleEnv 1 "a").1
          [(2, "b"), (1, "a")]).open exampleEnv 1 "./a").2 = Except.ok ⟨0, 1⟩ ∧
      ((PackageManager.openAll exampleEnv (emptyManager.open exampleEnv 1 "a").1
          [(2, "b"), (1, "a")]).open exampleEnv 1 "./a").1.loads
        = (PackageManager.openAll exampleEnv (emptyManager.open exampleEnv 1 "a").1
          [(2, "b"), (1, "a")]).loads :=
  ⟨rfl, open_cache_hit exampleEnv emptyManager 1 "a" "./a" ⟨0, 1⟩ [(2, "b"), (1, "a")]
    (by decide) rfl (by decide)⟩

/-- C2, as stated, fails where the package's own `open` throws: the cache holds an instance
of another class under the path, and `open<T>` ends in the exception instead of returning
the fresh instance. -/
theorem open_type_mismatch_load_throws :
    loadedManager.cached (fullPath failingEnv loadedManager.dataDirectory "a")
        = some ⟨0, 1⟩ ∧
      dynamic_pointer_cast failingEnv 2 (some ⟨0, 1⟩) = none ∧
      (loadedManager.open failingEnv 2 "a").2 = Except.error "file not found" ∧
      ∀ obj, (loadedManager.open failingEnv 2 "a").2 ≠ Except.ok obj := by
  refine ⟨by decide, by decide, rfl, ?_⟩
  intro obj h
  have h2 : (loadedManager.open failingEnv 2 "a").2 = Except.error "file not found" := rfl
  rw [h2] at h
  cases h

/-- C2 (amended): when the cache holds, under the normalized path of `name`, an instance
`old` that does not cast to `T`, then `open<T>(name)` creates a fresh `T`, stores it under
that path in place of the old entry (every other path keeps its entry), calls `open` on it
with the normalized path, and the fresh instance is not `old`; it returns the fresh
instance when that call returns, and ends in the call's exception when it throws. -/
theorem open_type_mismatch (env : Env) (pm : PackageManager) (T : ClassId) (name : String)
    (old : Packaged)
    (hold : pm.cached (fullPath env pm.dataDirectory name) = some old)
    (hcast : dynamic_pointer_cast env T (some old) = none) :
    (pm.open env T name).1.cached (fullPath env pm.dataDirectory name)
        = some ⟨pm.nextObject, T⟩ ∧
      (∀ k, k ≠ fullPath env pm.dataDirectory name →
        (pm.open env T name).1.cached k = pm.cached k) ∧
      (pm.open env T name).1.loads
        = pm.loads ++ [(⟨pm.nextObject, T⟩, fullPath env pm.dataDirectory name)] ∧
      (⟨pm.nextObject, T⟩ : Packaged) ≠ old ∧
      (pm.open env T name).2
        = (match env.load ⟨pm.nextObject, T⟩ (fullPath env pm.dataDirectory name) with
          | none => Except.ok ⟨pm.nextObject, T⟩
          | some e => Except.error e) := by
  have hmiss : dynamic_pointer_cast env T (pm.cached (fullPath env pm.dataDirectory name))
      = none := by rw [hold]; exact hcast
  have hne : (⟨pm.nextObject, T⟩ : Packaged) ≠ old := by
    intro h
    rw [← h, dynamic_pointer_cast_new] at hcast
    cases hcast
  rw [PackageManager.open_miss env pm T name hmiss]
  exact ⟨PackageManager.cached_afterMiss_same pm T _,
    fun k hk => PackageManager.cached_afterMiss_other pm T _ k hk, rfl, hne, rfl⟩

theorem open_type_mismatch_witness :
    loadedManager.cached (fullPath exampleEnv loadedManager.dataDirectory "a")
        = some ⟨0, 1⟩ ∧
      (loadedManager.open exampleEnv 2 "a").1.cached
          (fullPath exampleEnv loadedManager.dataDirectory "a") = some ⟨1, 2⟩ ∧
      (loadedManager.open exampleEnv 2 "a").2 = Except.ok ⟨1, 2⟩ :=
  ⟨by decide,
    (open_type_mismatch exampleEnv loadedManager 2 "a" ⟨0, 1⟩ (by decide) (by decide)).1,
    (open_type_mismatch exampleEnv loadedManager 2 "a" ⟨0, 1⟩ (by decide) (by decide)).2.2.2.2⟩

/-- C3, as stated, fails: two requests for one path under classes that do not cast to one
another load the path twice. -/
theorem load_twice_on_type_change :
    emptyManager.loadCount (fullPath exampleEnv emptyManager.dataDirectory "a") = 0 ∧
      (PackageManager.openAll exampleEnv emptyManager [(1, "a"), (2, "a")]).loadCount
        (fullPath exampleEnv emptyManager.dataDirectory "a") = 2 := by
  exact ⟨by decide, by decide⟩

/-- C3 (amended): in a sequence of `open` calls in which every request that reaches the
normalized path `path` asks for the same class `T`, the package load is invoked at most
once for `path`. -/
theorem load_once_per_path (env : Env) (T : ClassId) (path : String)
    (ops : List (ClassId × String)) (pm : PackageManager)
    (hops : ∀ op ∈ ops, fullPath env pm.dataDirectory op.2 = path → op.1 = T) :
    (PackageManager.openAll env pm ops).loadCount path ≤ pm.loadCount path + 1 := by
  induction ops generalizing pm with
  | nil => simp [PackageManager.openAll]
  | cons op rest ih =>
    obtain ⟨U, n⟩ := op
    have hdir := PackageManager.open_dataDirectory env pm U n
    have hrest : ∀ op ∈ rest,
        fullPath env (pm.open env U n).1.dataDirectory op.2 = path → op.1 = T := by
      intro op hop
      rw [hdir]
      exact hops op (List.mem_cons_of_mem _ hop)
    simp only [PackageManager.openAll]
    by_cases hp : fullPath env pm.dataDirectory n = path
    · have hU : U = T := hops (U, n) (List.mem_cons_self _ _) hp
      subst hU
      rcases PackageManager.open_cases env pm U n with ⟨obj, _, ho⟩ | ⟨_, ho⟩
      · have h := ih (pm.open env U n).1 hrest
        have hl : (pm.open env U n).1.loadCount path = pm.loadCount path := by rw [ho]; rfl
        omega
      · have hc1 : (pm.open env U n).1.cached path = some ⟨pm.nextObject, U⟩ := by
          rw [ho, hp]; exact PackageManager.cached_afterMiss_same pm U path
        obtain ⟨_, h2, _⟩ := PackageManager.openAll_stable env U path ⟨pm.nextObject, U⟩
          (dynamic_pointer_cast_new env U _) rest (pm.open env U n).1 hc1 hrest
        have hl : (pm.open env U n).1.loadCount path = pm.loadCount path + 1 := by
          rw [ho, hp]
          simp [PackageManager.loadCount, PackageManager.afterMiss, List.filter_append]
        omega
    · have hne : path ≠ fullPath env pm.dataDirectory n := fun h => hp h.symm
      have h := ih (pm.open env U n).1 hrest
      have hl := PackageManager.loadCount_open_other env pm U n path hne
      omega

theorem load_once_per_path_witness :
    (PackageManager.openAll exampleEnv emptyManager
        [(1, "a"), (2, "b"), (1, "./a"), (1, "a")]).loadCount "data/a" = 1 ∧
      (PackageManager.openAll exampleEnv emptyManager
          [(1, "a"), (2, "b"), (1, "./a"), (1, "a")]).loadCount "data/a"
        ≤ emptyManager.loadCount "data/a" + 1 :=
  ⟨by decide,
    load_once_per_path exampleEnv 1 "data/a" [(1, "a"), (2, "b"), (1, "./a"), (1, "a")]
      emptyManager (by decide)⟩

/-- C15: `open` after a failed load. When `open<T>(name)` finds no instance that casts to
`T` under the normalized path and the load of the new instance throws `e`, the call ends in
`e` with the new instance already stored under that path; a later `open<T>` that reaches
the same path (every `open` of that path in between asking for `T`) returns that instance
and records no further load. -/
theorem open_after_failed_load (env : Env) (pm : PackageManager) (T : ClassId)
    (name n2 : String) (e : String) (between : List (ClassId × String))
    (hmiss : dynamic_pointer_cast env T (pm.cached (fullPath env pm.dataDirectory name))
      = none)
    (hthrow : env.load ⟨pm.nextObject, T⟩ (fullPath env pm.dataDirectory name) = some e)
    (hpath : fullPath env pm.dataDirectory n2 = fullPath env pm.dataDirectory name)
    (hbetween : ∀ op ∈ between,
      fullPath env pm.dataDirectory op.2 = fullPath env pm.dataDirectory name → op.1 = T) :
    (pm.open env T name).2 = Except.error e ∧
      (pm.open env T name).1.cached (fullPath env pm.dataDirectory name)
        = some ⟨pm.nextObject, T⟩ ∧
      (pm.open env T name).1.loads
        = pm.loads ++ [(⟨pm.nextObject, T⟩, fullPath env pm.dataDirectory name)] ∧
      ((PackageManager.openAll env (pm.open env T name).1 between).open env T n2).2
        = Except.ok ⟨pm.nextObject, T⟩ ∧
      ((PackageManager.openAll env (pm.open env T name).1 between).open env T n2).1.loads
        = (PackageManager.openAll env (pm.open env T name).1 between).loads := by
  have ho := PackageManager.open_miss env pm T name hmiss
  rw [hthrow] at ho
  have hdir := PackageManager.open_dataDirectory env pm T name
  have hc : (pm.open env T name).1.cached (fullPath env pm.dataDirectory name)
      = some ⟨pm.nextObject, T⟩ := by
    rw [ho]; exact PackageManager.cached_afterMiss_same pm T _
  have hops : ∀ op ∈ between,
      fullPath env (pm.open env T name).1.dataDirectory op.2
        = fullPath env pm.dataDirectory name → op.1 = T := by
    intro op hop; rw [hdir]; exact hbetween op hop
  obtain ⟨h1, _, h3⟩ := PackageManager.openAll_stable env T
    (fullPath env pm.dataDirectory name) ⟨pm.nextObject, T⟩
    (dynamic_pointer_cast_new env T _) between (pm.open env T name).1 hc hops
  have hhit : dynamic_pointer_cast env T
      ((PackageManager.openAll env (pm.open env T name).1 between).cached
        (fullPath env
          (PackageManager.openAll env (pm.open env T name).1 between).dataDirectory n2))
      = some ⟨pm.nextObject, T⟩ := by
    rw [h3, hdir, hpath, h1]; exact dynamic_pointer_cast_new env T _
  refine ⟨by rw [ho], hc, by rw [ho]; rfl, ?_⟩
  rw [PackageManager.open_hit env _ T n2 _ hhit]
  exact ⟨rfl, rfl⟩

theorem open_after_failed_load_witness :
    (emptyManager.open failingEnv 1 "a").2 = Except.error "file not found" ∧
      ((PackageManager.openAll failingEnv (emptyManager.open failingEnv 1 "a").1
          [(2, "b")]).open failingEnv 1 "./a").2 = Except.ok ⟨0, 1⟩ ∧
      ((PackageManager.openAll failingEnv (emptyManager.open failingEnv 1 "a").1
          [(2, "b")]).open failingEnv 1 "./a").1.loadCount "data/a" = 1 :=
  ⟨(open_after_failed_load failingEnv emptyManager 1 "a" "./a" "file not found" [(2, "b")]
      (by decide) (by decide) (by decide) (by decide)).1,
    (open_after_failed_load failingEnv emptyManager 1 "a" "./a" "file not found" [(2, "b")]
      (by decide) (by decide) (by decide) (by decide)).2.2.2.1,
    by decide⟩

/-! ## Theorems: card list actions -/

theorem find_le_length (cards : List CardP) (card : CardP) :
    find cards card ≤ cards.length := by
  induction cards with
  | nil => simp [find]
  | cons c rest ih =>
    by_cases h : c = card
    · simp [find, h]
    · simp [find, h, ih]

theorem find_lt_length_iff (cards : List CardP) (card : CardP) :
    find cards card < cards.length ↔ card ∈ cards := by
  induction cards with
  | nil => simp [find]
  | cons c rest ih =>
    by_cases h : c = card
    · simp [find, h]
    · have h2 : ¬ card = c := fun e => h e.symm
      simp [find, h, h2, ih]

theorem length_erase (cards : List CardP) (pos : Nat) (h : pos < cards.length) :
    (erase cards pos).length + 1 = cards.length := by
  induction cards generalizing pos with
  | nil => simp at h
  | cons c rest ih =>
    cases pos with
    | zero => simp [erase]
    | succ n =>
      have hn : n < rest.length := by simpa using h
      simp [erase, ih n hn]

theorem insert_erase_find (cards : List CardP) (card : CardP) (h : card ∈ cards) :
    insert (erase cards (find cards card)) (find cards card) card = cards := by
  induction cards with
  | nil => simp at h
  | cons c rest ih =>
    by_cases hc : c = card
    · simp [find, hc, erase, insert]
    · have hmem : card ∈ rest := by
        rcases List.mem_cons.mp h with h1 | h1
        · exact absurd h1.symm hc
        · exact h1
      simp [find, hc, erase, insert, ih hmem]

/-- C10: the round trip of `RemoveCardAction`. For a card `c` that occurs in the card list
`L` (once or more often), the constructor succeeds with the position of the first
occurrence, `perform(false)` passes its assertion `card_id < size` and erases that
position, and `perform(true)` after it passes its assertion `card_id <= size` and leaves
exactly `L`. -/
theorem remove_card_round_trip (L : List CardP) (c : CardP) (hc : c ∈ L) :
    RemoveCardAction.ctor ⟨L⟩ c = Except.ok ⟨c, find L c⟩ ∧
      find L c < L.length ∧
      RemoveCardAction.perform ⟨c, find L c⟩ ⟨L⟩ false
        = Except.ok ⟨erase L (find L c)⟩ ∧
      find L c ≤ (erase L (find L c)).length ∧
      RemoveCardAction.perform ⟨c, find L c⟩ ⟨erase L (find L c)⟩ true = Except.ok ⟨L⟩ := by
  have hlt : find L c < L.length := (find_lt_length_iff L c).mpr hc
  have hlen := length_erase L (find L c) hlt
  have hle : find L c ≤ (erase L (find L c)).length := by omega
  refine ⟨?_, hlt, ?_, hle, ?_⟩
  · simp [RemoveCardAction.ctor, Nat.ne_of_lt hlt]
  · simp [RemoveCardAction.perform, hlt]
  · simp [RemoveCardAction.perform, hle, insert_erase_find L c hc]

theorem remove_card_round_trip_witness :
    (7 : CardP) ∈ [3, 7, 5, 7] ∧
      RemoveCardAction.ctor ⟨[3, 7, 5, 7]⟩ 7 = Except.ok ⟨7, 1⟩ ∧
      RemoveCardAction.perform ⟨7, 1⟩ ⟨[3, 7, 5, 7]⟩ false = Except.ok ⟨[3, 5, 7]⟩ ∧
      RemoveCardAction.perform ⟨7, 1⟩ ⟨[3, 5, 7]⟩ true = Except.ok ⟨[3, 7, 5, 7]⟩ :=
  ⟨by decide, (remove_card_round_trip [3, 7, 5, 7] 7 (by decide)).1,
    (remove_card_round_trip [3, 7, 5, 7] 7 (by decide)).2.2.1,
    (remove_card_round_trip [3, 7, 5, 7] 7 (by decide)).2.2.2.2⟩

theorem swap_getElem? (L : List CardP) (i j k : Nat) (hi : i < L.length)
    (hj : j < L.length) :
    ((L.set i (L.getD j 0)).set j (L.getD i 0))[k]?
      = if k = j then L[i]? else if k = i then L[j]? else L[k]? := by
  rw [List.getElem?_set, List.getElem?_set]
  simp only [List.length_set, hj, hi, if_true, List.getD_eq_getElem?_getD,
    List.getElem?_eq_getElem hi, List.getElem?_eq_getElem hj, Option.getD_some]
  by_cases h1 : j = k
  · subst h1; simp
  · by_cases h2 : i = k
    · subst h2; simp [h1, Ne.symm h1]
    · simp [h1, h2, Ne.symm h1, Ne.symm h2]

theorem swap_swap (L : List CardP) (i j : Nat) (hi : i < L.length) (hj : j < L.length) :
    (((L.set i (L.getD j 0)).set j (L.getD i 0)).set i
        (((L.set i (L.getD j 0)).set j (L.getD i 0)).getD j 0)).set j
        (((L.set i (L.getD j 0)).set j (L.getD i 0)).getD i 0) = L := by
  have hi' : i < ((L.set i (L.getD j 0)).set j (L.getD i 0)).length := by simpa using hi
  have hj' : j < ((L.set i (L.getD j 0)).set j (L.getD i 0)).length := by simpa using hj
  apply List.ext_getElem?
  intro k
  rw [swap_getElem? _ i j k hi' hj', swap_getElem? L i j i hi hj,
    swap_getElem? L i j j hi hj, swap_getElem? L i j k hi hj]
  by_cases h1 : k = j
  · subst h1; by_cases h2 : i = k <;> simp [h2]
  · by_cases h2 : k = i
    · subst h2; simp [h1]
    · simp [h1, h2]

/-- C11: the round trip of `AddCardAction`. For every card list `L`, `perform(false)` yields
`L` with the action's card appended as the last element; the list is then not empty, so the
assertion of `perform(true)` holds, and `perform(true)` restores exactly `L`. -/
theorem add_card_round_trip (a : AddCardAction) (L : List CardP) :
    a.perform ⟨L⟩ false = Except.ok ⟨L ++ [a.card]⟩ ∧
      (L ++ [a.card]).getLast? = some a.card ∧
      (L ++ [a.card]).isEmpty = false ∧
      a.perform ⟨L ++ [a.card]⟩ true = Except.ok ⟨L⟩ := by
  refine ⟨?_, ?_, ?_, ?_⟩
  · simp [AddCardAction.perform]
  · simp
  · simp
  · simp [AddCardAction.perform]

/-- C12: `ReorderCardsAction` is its own inverse. For indices `i`, `j` below the size of
`L` (also `i = j`), `perform` yields, with `to_undo` true or false alike, a list of the same
size that has at `i` the element `L` has at `j`, at `j` the element `L` has at `i`, and at
every other position the element of `L`; a second `perform`, with either `to_undo`,
restores exactly `L`. -/
theorem reorder_cards_swap (L : List CardP) (i j : Nat) (hi : i < L.length)
    (hj : j < L.length) :
    ∃ L' : List CardP,
      (∀ to_undo, ReorderCardsAction.perform ⟨i, j⟩ ⟨L⟩ to_undo = Except.ok ⟨L'⟩) ∧
      L'.length = L.length ∧ L'[i]? = L[j]? ∧ L'[j]? = L[i]? ∧
      (∀ k, k ≠ i → k ≠ j → L'[k]? = L[k]?) ∧
      (∀ to_undo, ReorderCardsAction.perform ⟨i, j⟩ ⟨L'⟩ to_undo = Except.ok ⟨L⟩) := by
  refine ⟨(L.set i (L.getD j 0)).set j (L.getD i 0), ?_, ?_, ?_, ?_, ?_, ?_⟩
  · intro u
    simp only [ReorderCardsAction.perform, hi, hj, if_true]
  · simp
  · rw [swap_getElem? L i j i hi hj]
    by_cases h : i = j
    · subst h; simp
    · simp [h]
  · rw [swap_getElem? L i j j hi hj]; simp
  · intro k h1 h2
    rw [swap_getElem? L i j k hi hj]; simp [h1, h2]
  · intro u
    have hi' : i < ((L.set i (L.getD j 0)).set j (L.getD i 0)).length := by simpa using hi
    have hj' : j < ((L.set i (L.getD j 0)).set j (L.getD i 0)).length := by simpa using hj
    simp only [ReorderCardsAction.perform, hi', hj', if_true, swap_swap L i j hi hj]

theorem reorder_cards_swap_witness :
    ReorderCardsAction.perform ⟨0, 2⟩ ⟨[3, 7, 5, 7]⟩ false = Except.ok ⟨[5, 7, 3, 7]⟩ ∧
      ReorderCardsAction.perform ⟨0, 2⟩ ⟨[5, 7, 3, 7]⟩ true = Except.ok ⟨[3, 7, 5, 7]⟩ ∧
      ∃ L' : List CardP,
        (∀ to_undo, ReorderCardsAction.perform ⟨0, 2⟩ ⟨[3, 7, 5, 7]⟩ to_undo
          = Except.ok ⟨L'⟩) ∧
        L'.length = [3, 7, 5, 7].length ∧ L'[0]? = [3, 7, 5, 7][2]? ∧
        L'[2]? = [3, 7, 5, 7][0]? ∧
        (∀ k, k ≠ 0 → k ≠ 2 → L'[k]? = [3, 7, 5, 7][k]?) ∧
        (∀ to_undo, ReorderCardsAction.perform ⟨0, 2⟩ ⟨L'⟩ to_undo
          = Except.ok ⟨[3, 7, 5, 7]⟩) :=
  ⟨rfl, rfl, reorder_cards_swap [3, 7, 5, 7] 0 2 (by decide) (by decide)⟩

theorem find_getElem? (cards : List CardP) (card : CardP) (h : card ∈ cards) :
    cards[find cards card]? = some card := by
  induction cards with
  | nil => simp at h
  | cons c rest ih =>
    by_cases hc : c = card
    · simp [find, hc]
    · have hmem : card ∈ rest := by
        rcases List.mem_cons.mp h with h1 | h1
        · exact absurd h1.symm hc
        · exact h1
      simp [find, hc, ih hmem]

theorem find_first (cards : List CardP) (card : CardP) (k : Nat)
    (h : k < find cards card) : cards[k]? ≠ some card := by
  induction cards generalizing k with
  | nil => simp
  | cons c rest ih =>
    by_cases hc : c = card
    · simp [find, hc] at h
    · cases k with
      | zero => simp [hc]
      | succ n =>
        have hn : n < find rest card := by simpa [find, hc] using h
        simpa using ih n hn

theorem erase_find_split (cards : List CardP) (card : CardP) (h : card ∈ cards) :
    ∃ l1 l2 : List CardP, cards = l1 ++ card :: l2 ∧ card ∉ l1 ∧
      find cards card = l1.length ∧ erase cards (find cards card) = l1 ++ l2 := by
  induction cards with
  | nil => simp at h
  | cons c rest ih =>
    by_cases hc : c = card
    · exact ⟨[], rest, by simp [hc], by simp, by simp [find, hc], by simp [find, hc, erase]⟩
    · have hmem : card ∈ rest := by
        rcases List.mem_cons.mp h with h1 | h1
        · exact absurd h1.symm hc
        · exact h1
      obtain ⟨l1, l2, h1, h2, h3, h4⟩ := ih hmem
      refine ⟨c :: l1, l2, by simp [← h1], ?_, by simp [find, hc, h3], ?_⟩
      · simp only [List.mem_cons, not_or]
        exact ⟨fun e => hc e.symm, h2⟩
      · simp [find, hc, erase, h4]

/-- C13: constructing `RemoveCardAction(set, card)` throws `InternalError` exactly when
`card` does not occur in `set.cards` and succeeds exactly when it occurs; on success
`card_id` is the position of the first occurrence of `card` (the card is at `card_id` and at
no position before it); in both cases the set is unchanged by the construction. -/
theorem remove_card_ctor (set : CardSet) (card : CardP) :
    (RemoveCardAction.ctor set card
        = Except.error (.InternalError "Card to remove not found in set")
      ↔ card ∉ set.cards) ∧
    (RemoveCardAction.ctor set card = Except.ok ⟨card, find set.cards card⟩
      ↔ card ∈ set.cards) ∧
    (card ∈ set.cards →
      set.cards[find set.cards card]? = some card ∧
        ∀ k, k < find set.cards card → set.cards[k]? ≠ some card) ∧
    (RemoveCardAction.construct set card).1 = set ∧
    (RemoveCardAction.construct set card).2 = RemoveCardAction.ctor set card := by
  have hiff := find_lt_length_iff set.cards card
  have hle := find_le_length set.cards card
  refine ⟨?_, ?_, ?_, rfl, rfl⟩
  · by_cases h : card ∈ set.cards
    · have hlt := hiff.mpr h
      simp [RemoveCardAction.ctor, Nat.ne_of_lt hlt, h]
    · have hge : ¬ find set.cards card < set.cards.length := fun hlt => h (hiff.mp hlt)
      have heq : find set.cards card = set.cards.length := by omega
      simp [RemoveCardAction.ctor, heq, h]
  · by_cases h : card ∈ set.cards
    · have hlt := hiff.mpr h
      simp [RemoveCardAction.ctor, Nat.ne_of_lt hlt, h]
    · have hge : ¬ find set.cards card < set.cards.length := fun hlt => h (hiff.mp hlt)
      have heq : find set.cards card = set.cards.length := by omega
      simp [RemoveCardAction.ctor, heq, h]
  · intro h
    exact ⟨find_getElem? set.cards card h, fun k hk => find_first set.cards card k hk⟩

theorem remove_card_ctor_witness :
    RemoveCardAction.ctor ⟨[3, 7, 5, 7]⟩ 7 = Except.ok ⟨7, 1⟩ ∧
      RemoveCardAction.ctor ⟨[3, 7, 5, 7]⟩ 4
        = Except.error (.InternalError "Card to remove not found in set") :=
  ⟨(remove_card_ctor ⟨[3, 7, 5, 7]⟩ 7).2.1.mpr (by decide),
    (remove_card_ctor ⟨[3, 7, 5, 7]⟩ 4).1.mpr (by decide)⟩

/-- C14: `RemoveCardAction` removes the card it was built for. For a card list `L` that
contains `c`, the action constructed on `L` and performed on the same `L` with
`to_undo = false` yields `L` without the first occurrence of `c`: `L` is `l1 ++ c :: l2`
with `c` not in `l1`, the result is `l1 ++ l2`, and its length is one less. -/
theorem remove_card_removes_first (L : List CardP) (c : CardP) (hc : c ∈ L) :
    ∃ (a : RemoveCardAction) (l1 l2 : List CardP),
      RemoveCardAction.ctor ⟨L⟩ c = Except.ok a ∧
      L = l1 ++ c :: l2 ∧ c ∉ l1 ∧
      a.perform ⟨L⟩ false = Except.ok ⟨l1 ++ l2⟩ ∧
      (l1 ++ l2).length + 1 = L.length ∧
      l1 ++ l2 = L.erase c := by
  obtain ⟨l1, l2, h1, h2, h3, h4⟩ := erase_find_split L c hc
  have hlt : find L c < L.length := (find_lt_length_iff L c).mpr hc
  refine ⟨⟨c, find L c⟩, l1, l2, ?_, h1, h2, ?_, ?_, ?_⟩
  · simp [RemoveCardAction.ctor, Nat.ne_of_lt hlt]
  · simp [RemoveCardAction.perform, hlt, h4]
  · rw [h1]; simp only [List.length_append, List.length_cons]; omega
  · rw [h1, List.erase_append_right _ h2]
    simp

theorem remove_card_removes_first_witness :
    RemoveCardAction.perform ⟨7, 1⟩ ⟨[3, 7, 5, 7]⟩ false = Except.ok ⟨[3, 5, 7]⟩ ∧
      ∃ (a : RemoveCardAction) (l1 l2 : List CardP),
        RemoveCardAction.ctor ⟨[3, 7, 5, 7]⟩ 7 = Except.ok a ∧
        [3, 7, 5, 7] = l1 ++ 7 :: l2 ∧ 7 ∉ l1 ∧
        a.perform ⟨[3, 7, 5, 7]⟩ false = Except.ok ⟨l1 ++ l2⟩ ∧
        (l1 ++ l2).length + 1 = [3, 7, 5, 7].length ∧
        l1 ++ l2 = [3, 7, 5, 7].erase 7 :=
  ⟨rfl, remove_card_removes_first [3, 7, 5, 7] 7 (by decide)⟩

/-! ## Theorems: generated images -/

/-- C6: two `SymbolToImage` nodes compare equal exactly when their filename, their age and
their variation are all equal; with the same filename and variation, ages 1 and 2 compare
unequal; and a `SymbolToImage` compares unequal, in either order, to every node of another
variant. -/
theorem symbol_to_image_eq (f1 f2 : String) (a1 a2 : Age) (v1 v2 : SymbolVariationP) :
    ((GeneratedImage.SymbolToImage f1 a1 v1).eq (.SymbolToImage f2 a2 v2) = true
        ↔ f1 = f2 ∧ a1 = a2 ∧ v1 = v2) ∧
      (GeneratedImage.SymbolToImage f1 1 v1).eq (.SymbolToImage f1 2 v1) = false ∧
      (∀ other : GeneratedImage, (∀ f a v, other ≠ .SymbolToImage f a v) →
        (GeneratedImage.SymbolToImage f1 a1 v1).eq other = false ∧
          other.eq (.SymbolToImage f1 a1 v1) = false) := by
  refine ⟨?_, ?_, ?_⟩
  · simp only [GeneratedImage.eq, Bool.and_eq_true, decide_eq_true_eq, and_assoc]
  · simp [GeneratedImage.eq]
  · intro other hother
    cases other <;> simp only [GeneratedImage.eq, and_self]
    exact absurd rfl (hother _ _ _)

theorem symbol_to_image_eq_witness :
    (GeneratedImage.SymbolToImage "sym.svg" 1 4).eq (.SymbolToImage "sym.svg" 1 4) = true ∧
      (GeneratedImage.SymbolToImage "sym.svg" 1 4).eq (.SymbolToImage "sym.svg" 2 4) = false ∧
      (GeneratedImage.SymbolToImage "sym.svg" 1 4).eq (.PackagedImage "sym.svg") = false :=
  ⟨(symbol_to_image_eq "sym.svg" "sym.svg" 1 1 4 4).1.mpr ⟨rfl, rfl, rfl⟩,
    (symbol_to_image_eq "sym.svg" "sym.svg" 1 1 4 4).2.1,
    ((symbol_to_image_eq "sym.svg" "sym.svg" 1 1 4 4).2.2 (.PackagedImage "sym.svg")
      (by intro f a v h; cases h)).1⟩

/-- C7: `SetCombineImage(image, mode).combine()` is `mode` for every child `image`,
whatever the child's own `combine()` is. -/
theorem set_combine_image_combine (setMask : ImageCombine → ImageCombine → ImageCombine)
    (image : GeneratedImage) (mode : ImageCombine) :
    (GeneratedImage.SetCombineImage image mode).combine setMask = mode := by
  simp only [GeneratedImage.combine]

/-- C8: `combine()` of a `PackagedImage`, a `BuiltInImage` and a `SymbolToImage`, the
variants that do not override it, is `COMBINE_NORMAL` for every value of their members. -/
theorem leaf_combine_normal (setMask : ImageCombine → ImageCombine → ImageCombine)
    (filename name symbol : String) (age : Age) (variation : SymbolVariationP) :
    (GeneratedImage.PackagedImage filename).combine setMask = ImageCombine.COMBINE_NORMAL ∧
      (GeneratedImage.BuiltInImage name).combine setMask = ImageCombine.COMBINE_NORMAL ∧
      (GeneratedImage.SymbolToImage symbol age variation).combine setMask
        = ImageCombine.COMBINE_NORMAL := by
  simp only [GeneratedImage.combine, GeneratedImage.combineDefault, and_self]

/-- C9: an `Options` constructed with no arguments has width 0, height 0, the aspect policy
`ASPECT_STRETCH`, `saturate` false, and null for both package pointers. -/
theorem options_default :
    Options.default.width = 0 ∧ Options.default.height = 0 ∧
      Options.default.preserve_aspect = PreserveAspect.ASPECT_STRETCH ∧
      Options.default.saturate = false ∧
      Options.default.package = none ∧ Options.default.symbol_package = none := by
  simp only [Options.default, Options.ctor, and_self]

end MSE
